import Mathlib

/-!
Verification of the serial command ingestion and framing layer of the
motorized pill-dispenser firmware (`src/ESP32/main/esp32_idf.c`).

Bytes are modelled as `Nat` values (concrete byte values are below 256;
the C `uint8_t` additions that can wrap are rendered with explicit
`% 256`).  The UART receive buffer is a `List Nat`; the accumulator's
parse loop is a step function `drainStep` plus a fuelled iterator
`drainF`, with `drain` running the loop with fuel equal to the buffer
length (shown sufficient below).  Side effects (servo sweeps and
outbound acknowledgements) are reified as values: a trace of `Event`s,
and an `Ack` structure holding the fields of the JSON reply emitted by
`send_ack_json`.  The external cJSON parser is not part of the
repository, so `handle_json_command_line` is parameterised by an
arbitrary parse function `parse`; every theorem about the line path
holds for all such functions.
-/

set_option autoImplicit false

namespace Sauron

/-- Capacity of the RX accumulation buffer (`RX_ACCUM_SIZE`). -/
def RX_ACCUM_SIZE : Nat := 2048

/-- `BUF_SIZE` from the C source; a line is truncated to `BUF_SIZE - 1` bytes. -/
def BUF_SIZE : Nat := 1024

/-- Binary frame start marker (`UART_FRAME_START = 0xAA`). -/
def UART_FRAME_START : Nat := 0xAA

/-- Binary frame end marker (`UART_FRAME_END = 0x55`). -/
def UART_FRAME_END : Nat := 0x55

/-- Supported frame version (`UART_FRAME_VER_1 = 0x01`). -/
def UART_FRAME_VER_1 : Nat := 0x01

/-- Frame length (`UART_FRAME_LEN_V1 = 8`). -/
def UART_FRAME_LEN_V1 : Nat := 8

/-- Verdict of `try_handle_sauron_frame` on the head of the buffer:
`0` when the length is short of 8 or byte 0 is not the start marker,
`-1` when the end marker, version, or checksum check fails, `1` when
the frame validates (in the C code the `1` path also dispatches the
counts and sends the acknowledgement; those effects are modelled in
`drainStep` / `event_acks`). -/
def sauron_frame_verdict (frame : List Nat) : Int :=
  match frame with
  | b0 :: b1 :: b2 :: b3 :: b4 :: b5 :: b6 :: b7 :: _ =>
    if b0 ≠ UART_FRAME_START then 0
    else if b7 ≠ UART_FRAME_END then -1
    else if b1 ≠ UART_FRAME_VER_1 then -1
    else if (b1 + b2 + b3 + b4 + b5) % 256 ≠ b6 then -1
    else 1
  | _ => 0

/-- The four channel dose counts a validated frame carries
(`frame[2] .. frame[5]` in the C code). -/
def sauron_frame_counts (frame : List Nat) : List Nat :=
  match frame with
  | _ :: _ :: b2 :: b3 :: b4 :: b5 :: _ => [b2, b3, b4, b5]
  | _ => []

/-- `pill_to_index`: map a substance name to its channel, `-1` if unknown. -/
def pill_to_index (pill : String) : Int :=
  if pill = "Vitamin C" then 0
  else if pill = "Fish Oil" then 1
  else if pill = "Vitamin B" then 2
  else if pill = "Tylenol" then 3
  else -1

/-- The clamp applied to a line-protocol count in `handle_json_command_line`:
negative values become 0, values above 20 become 20. -/
def clamp_count (count : Int) : Int :=
  if count < 0 then 0 else if count > 20 then 20 else count

/-- One key/value member of a parsed line object.  `value = none` models a
member whose value is not a number (skipped by `cJSON_IsNumber`). -/
structure JsonMember where
  key : String
  value : Option Int
deriving DecidableEq, Repr

/-- The `cJSON_ArrayForEach` loop of `handle_json_command_line`: starting
from `[0,0,0,0]`, each numeric member whose key names a known pill sets
that channel to the clamped value. -/
def apply_members (counts : List Int) (obj : List JsonMember) : List Int :=
  obj.foldl
    (fun cs it =>
      match it.value with
      | none => cs
      | some v =>
        let idx := pill_to_index it.key
        if idx < 0 then cs else cs.set idx.toNat (clamp_count v))
    counts

/-- Dose counts resolved from a parsed line object. -/
def line_counts (obj : List JsonMember) : List Int :=
  apply_members [0, 0, 0, 0] obj

/-- `execute_channel_counts`, reified: the list of channel indices swept,
in order (channel `idx` appears `counts[idx]` times when positive). -/
def execute_channel_counts (counts : List Int) : List Nat :=
  (List.range 4).flatMap fun idx => List.replicate (counts.getD idx 0).toNat idx

/-- The fields of one outbound acknowledgement line, as formatted by
`send_ack_json`. -/
structure Ack where
  status : String
  protocol : String
  counts : List Int
deriving DecidableEq, Repr

/-- Whitespace trimming at the start of `handle_json_command_line`
(space, tab, carriage return, newline). -/
def line_trim (line : List Nat) : List Nat :=
  line.dropWhile fun b => b = 32 ∨ b = 9 ∨ b = 13 ∨ b = 10

/-- `handle_json_command_line`, parameterised by the external JSON parser
`parse` (cJSON is not repository code): returns the servo sweeps
performed and the acknowledgement sent, if any.  An all-whitespace line
returns silently; a line `parse` rejects is acknowledged `bad_json`
with zero counts and no actuation; otherwise the resolved counts are
dispatched and acknowledged `done`. -/
def handle_json_command_line (parse : List Nat → Option (List JsonMember))
    (line : List Nat) : List Nat × Option Ack :=
  let l := line_trim line
  if l = [] then ([], none)
  else
    match parse l with
    | none => ([], some ⟨"bad_json", "json_line", [0, 0, 0, 0]⟩)
    | some obj =>
      let counts := line_counts obj
      (execute_channel_counts counts, some ⟨"done", "json_line", counts⟩)

/-- One observable action of a single pass of the accumulator's parse
loop: a validated binary frame dispatched and acknowledged, a
newline-terminated unit handed to `handle_json_command_line`, or a
single byte discarded for resynchronisation. -/
inductive Event where
  | frameAck (counts : List Nat)
  | lineUnit (line : List Nat)
  | dropByte (b : Nat)
deriving DecidableEq, Repr

/-- Result of one pass of the parse loop: either the loop stops (waits
for more data) or it emits one event and continues on the rest. -/
inductive StepRes where
  | stop
  | emit (e : Event) (rest : List Nat)
deriving DecidableEq, Repr

/-- `memchr(rx_buf, '\n', rx_len)`: index of the first newline byte. -/
def find_newline : List Nat → Option Nat
  | [] => none
  | b :: rest => if b = 10 then some 0 else (find_newline rest).map (· + 1)

/-- One pass of the `while (rx_len > 0)` loop in `uart_task`:
head byte `0xAA` → wait if fewer than 8 bytes, else consume a valid
frame or drop one byte; otherwise, extract up to the first newline as a
line unit (truncated to `BUF_SIZE - 1` bytes, the whole unit consumed),
or, with no newline buffered, drop the head byte when it is not a
plausible line start (`{`, space, tab, carriage return) and wait
otherwise. -/
def drainStep (buf : List Nat) : StepRes :=
  match buf with
  | [] => .stop
  | b :: rest =>
    if b = UART_FRAME_START then
      if buf.length < UART_FRAME_LEN_V1 then .stop
      else if sauron_frame_verdict buf = 1 then
        .emit (.frameAck (sauron_frame_counts buf)) (buf.drop UART_FRAME_LEN_V1)
      else .emit (.dropByte b) rest
    else
      match find_newline buf with
      | some i =>
        .emit (.lineUnit ((buf.take i).take (BUF_SIZE - 1))) (buf.drop (i + 1))
      | none =>
        if b = 123 ∨ b = 32 ∨ b = 9 ∨ b = 13 then .stop
        else .emit (.dropByte b) rest

/-- Iterate `drainStep` for at most `fuel` passes, collecting the trace
of events and the leftover buffer. -/
def drainF : Nat → List Nat → List Event × List Nat
  | 0, buf => ([], buf)
  | fuel + 1, buf =>
    match drainStep buf with
    | .stop => ([], buf)
    | .emit e rest =>
      let p := drainF fuel rest
      (e :: p.1, p.2)

/-- The full drain of the parse loop after an ingest; fuel equal to the
buffer length is enough (`drainF_stable` below). -/
def drain (buf : List Nat) : List Event × List Nat :=
  drainF buf.length buf

/-- Acknowledgements produced by one event of the trace: a validated
frame is acknowledged `done` on protocol `SAURON_UART_V1`; a line unit
is acknowledged as `handle_json_command_line` decides; a dropped byte
produces nothing. -/
def event_acks (parse : List Nat → Option (List JsonMember)) :
    Event → List Ack
  | .frameAck cs => [⟨"done", "SAURON_UART_V1", cs.map Int.ofNat⟩]
  | .lineUnit l =>
    match (handle_json_command_line parse l).2 with
    | none => []
    | some a => [a]
  | .dropByte _ => []

/-- The append-with-overflow step at the top of `uart_task`'s read loop
(`rx_buf`/`rx_len` update for a chunk `data[0..len)`).  Note the first
branch: the C code sets `len = RX_ACCUM_SIZE` before computing
`&data[len - RX_ACCUM_SIZE]`, so for an oversized chunk it copies the
FIRST `RX_ACCUM_SIZE` bytes of the chunk. -/
def ingest (rx chunk : List Nat) : List Nat :=
  if RX_ACCUM_SIZE < chunk.length then chunk.take RX_ACCUM_SIZE
  else if RX_ACCUM_SIZE < rx.length + chunk.length then
    let overflow := rx.length + chunk.length - RX_ACCUM_SIZE
    if rx.length ≤ overflow then chunk
    else rx.drop overflow ++ chunk
  else rx ++ chunk

/-- `SERVO_MIN_PULSE_US`. -/
def SERVO_MIN_PULSE_US : Nat := 500

/-- `SERVO_MAX_PULSE_US`. -/
def SERVO_MAX_PULSE_US : Nat := 2500

/-- `SERVO_MAX_ANGLE_DEG`. -/
def SERVO_MAX_ANGLE_DEG : Nat := 180

/-- `SERVO_PERIOD_US`. -/
def SERVO_PERIOD_US : Nat := 20000

/-- The clamp at the top of `angle_to_duty`. -/
def clamp_angle (angle : Int) : Nat :=
  if angle < 0 then 0
  else if angle > (SERVO_MAX_ANGLE_DEG : Int) then SERVO_MAX_ANGLE_DEG
  else angle.toNat

/-- `angle_to_duty`: clamp the angle to `[0, 180]`, map it linearly to a
pulse width in `[500, 2500]` µs, then map the pulse width to a 16-bit
LEDC duty over the 20 ms period (all integer divisions truncate, as in
the C `uint32_t` arithmetic, which does not overflow here). -/
def angle_to_duty (angle : Int) : Nat :=
  let a := clamp_angle angle
  let pulse_us := SERVO_MIN_PULSE_US +
    a * (SERVO_MAX_PULSE_US - SERVO_MIN_PULSE_US) / SERVO_MAX_ANGLE_DEG
  pulse_us * ((2 ^ 16) - 1) / SERVO_PERIOD_US

/-- Modelled from the spec (claim C9's formula, for comparison with the
code's `angle_to_duty`): clamp, then apply the linear map directly in
duty space, `duty_min + angle * (duty_max - duty_min) / angle_max`,
with `duty_min`/`duty_max` the duty values at angles 0 and 180. -/
def spec_angle_to_duty (angle : Int) : Nat :=
  let a := clamp_angle angle
  let duty_min := angle_to_duty 0
  let duty_max := angle_to_duty (SERVO_MAX_ANGLE_DEG : Int)
  duty_min + a * (duty_max - duty_min) / SERVO_MAX_ANGLE_DEG

/-! ### Helper lemmas about the parse loop -/

/-- `find_newline` finds nothing on a newline-free buffer (as `memchr` does). -/
theorem find_newline_eq_none (l : List Nat) (h : ∀ b ∈ l, b ≠ 10) :
    find_newline l = none := by
  induction l with
  | nil => rfl
  | cons b rest ih =>
    simp only [find_newline]
    rw [if_neg (h b (by simp)), ih (fun x hx => h x (by simp [hx]))]
    rfl

/-- A found newline index is inside the buffer. -/
theorem find_newline_lt_length (l : List Nat) (i : Nat)
    (h : find_newline l = some i) : i < l.length := by
  induction l generalizing i with
  | nil => simp [find_newline] at h
  | cons b rest ih =>
    simp only [find_newline] at h
    by_cases hb : b = 10
    · rw [if_pos hb] at h
      cases h
      simp
    · rw [if_neg hb] at h
      cases hfr : find_newline rest with
      | none => rw [hfr] at h; simp at h
      | some j =>
        rw [hfr] at h
        have hj := ih j hfr
        simp only [List.length_cons]
        simp at h
        omega

/-- The first newline of `l ++ 10 :: t` sits right after the
newline-free prefix `l`. -/
theorem find_newline_append (l t : List Nat) (h : ∀ b ∈ l, b ≠ 10) :
    find_newline (l ++ 10 :: t) = some l.length := by
  induction l with
  | nil => simp [find_newline]
  | cons b rest ih =>
    simp only [List.cons_append, find_newline, List.append_eq]
    rw [if_neg (h b (by simp)), ih (fun x hx => h x (by simp [hx]))]
    rfl

/-- A pass that emits an event strictly shrinks the buffer. -/
theorem drainStep_progress (buf : List Nat) (e : Event) (rest : List Nat)
    (h : drainStep buf = .emit e rest) : rest.length < buf.length := by
  cases buf with
  | nil => simp [drainStep] at h
  | cons b tl =>
    simp only [drainStep] at h
    by_cases hb : b = UART_FRAME_START
    · rw [if_pos hb] at h
      by_cases hlen : (b :: tl).length < UART_FRAME_LEN_V1
      · rw [if_pos hlen] at h
        cases h
      · rw [if_neg hlen] at h
        by_cases hv : sauron_frame_verdict (b :: tl) = 1
        · rw [if_pos hv] at h
          cases h
          simp only [List.length_drop]
          exact Nat.sub_lt (by simp) (by simp [UART_FRAME_LEN_V1])
        · rw [if_neg hv] at h
          cases h
          simp
    · rw [if_neg hb] at h
      cases hfr : find_newline (b :: tl) with
      | some i =>
        rw [hfr] at h
        cases h
        simp only [List.length_drop]
        exact Nat.sub_lt (by simp) (Nat.succ_pos i)
      | none =>
        rw [hfr] at h
        by_cases hp : b = 123 ∨ b = 32 ∨ b = 9 ∨ b = 13
        · rw [if_pos hp] at h
          cases h
        · rw [if_neg hp] at h
          cases h
          simp

/-- Any fuel at least the buffer length computes the same drain. -/
theorem drainF_stable (f : Nat) : ∀ (g : Nat) (buf : List Nat),
    buf.length ≤ f → buf.length ≤ g → drainF f buf = drainF g buf := by
  induction f with
  | zero =>
    intro g buf hf _
    have hb : buf = [] := List.eq_nil_of_length_eq_zero (Nat.le_zero.mp hf)
    subst hb
    cases g <;> simp [drainF, drainStep]
  | succ f ih =>
    intro g buf hf hg
    cases g with
    | zero =>
      have hb : buf = [] := List.eq_nil_of_length_eq_zero (Nat.le_zero.mp hg)
      subst hb
      simp [drainF, drainStep]
    | succ g =>
      cases hstep : drainStep buf with
      | stop => simp [drainF, hstep]
      | emit e rest =>
        have hlt := drainStep_progress buf e rest hstep
        have h1 : rest.length ≤ f := Nat.lt_succ_iff.mp (Nat.lt_of_lt_of_le hlt hf)
        have h2 : rest.length ≤ g := Nat.lt_succ_iff.mp (Nat.lt_of_lt_of_le hlt hg)
        simp only [drainF, hstep]
        rw [ih g rest h1 h2]

/-- A head byte that is no frame start, no plausible line start, and has
no newline anywhere behind it is dropped as noise. -/
theorem drainStep_drop_noise (b : Nat) (rest : List Nat)
    (hb : ¬(b = UART_FRAME_START ∨ b = 123 ∨ b = 32 ∨ b = 9 ∨ b = 13))
    (hnl : ∀ x ∈ b :: rest, x ≠ 10) :
    drainStep (b :: rest) = .emit (.dropByte b) rest := by
  have hno : find_newline (b :: rest) = none := find_newline_eq_none _ hnl
  simp only [drainStep]
  rw [if_neg (fun h => hb (Or.inl h)), hno]
  exact if_neg (fun h => hb (Or.inr h))

/-- A buffer headed by the start marker with at least 8 bytes but a
failing validation drops exactly one byte. -/
theorem drainStep_frame_fail (tl : List Nat)
    (hlen : UART_FRAME_LEN_V1 ≤ (UART_FRAME_START :: tl).length)
    (hv : sauron_frame_verdict (UART_FRAME_START :: tl) ≠ 1) :
    drainStep (UART_FRAME_START :: tl) = .emit (.dropByte UART_FRAME_START) tl := by
  simp only [drainStep, if_true]
  rw [if_neg (Nat.not_lt.mpr hlen), if_neg hv]

/-- A buffer headed by a validating frame consumes the 8 frame bytes and
acknowledges the payload counts. -/
theorem drainStep_frame_ok (tl : List Nat)
    (hlen : UART_FRAME_LEN_V1 ≤ (UART_FRAME_START :: tl).length)
    (hv : sauron_frame_verdict (UART_FRAME_START :: tl) = 1) :
    drainStep (UART_FRAME_START :: tl) =
      .emit (.frameAck (sauron_frame_counts (UART_FRAME_START :: tl)))
        ((UART_FRAME_START :: tl).drop UART_FRAME_LEN_V1) := by
  simp only [drainStep, if_true]
  rw [if_neg (Nat.not_lt.mpr hlen), if_pos hv]

/-- A run of noise bytes ahead of the rest of the buffer is dropped one
byte per pass, provided no newline is buffered anywhere. -/
theorem drain_noise (noise : List Nat) : ∀ (t : List Nat) (f : Nat),
    (∀ b ∈ noise, ¬(b = UART_FRAME_START ∨ b = 123 ∨ b = 32 ∨ b = 9 ∨ b = 13)) →
    (∀ b ∈ noise, b ≠ 10) → (∀ b ∈ t, b ≠ 10) →
    drainF (noise.length + f) (noise ++ t) =
      ((noise.map Event.dropByte) ++ (drainF f t).1, (drainF f t).2) := by
  induction noise with
  | nil => intro t f _ _ _; simp
  | cons n ns ih =>
    intro t f h1 h2 h3
    have hstep : drainStep (n :: (ns ++ t)) = .emit (.dropByte n) (ns ++ t) := by
      refine drainStep_drop_noise n (ns ++ t) (h1 n (by simp)) ?_
      intro x hx
      rcases List.mem_cons.mp hx with hx | hx
      · subst hx; exact h2 x (by simp)
      · rcases List.mem_append.mp hx with hx | hx
        · exact h2 x (by simp [hx])
        · exact h3 x hx
    have harith : (n :: ns).length + f = (ns.length + f) + 1 := by
      simp [Nat.add_comm, Nat.add_assoc, Nat.add_left_comm]
    rw [harith]
    simp only [List.cons_append, drainF, hstep]
    rw [ih t f (fun b hb => h1 b (by simp [hb])) (fun b hb => h2 b (by simp [hb])) h3]
    simp

/-- The line-protocol clamp lands in `[0, 20]`. -/
theorem clamp_count_bounds (v : Int) : 0 ≤ clamp_count v ∧ clamp_count v ≤ 20 := by
  unfold clamp_count
  split_ifs <;> omega

/-- Unfolding one member of the `cJSON_ArrayForEach` loop. -/
theorem apply_members_cons (cs : List Int) (it : JsonMember) (rest : List JsonMember) :
    apply_members cs (it :: rest) =
      apply_members
        (match it.value with
         | none => cs
         | some v =>
           if pill_to_index it.key < 0 then cs
           else cs.set (pill_to_index it.key).toNat (clamp_count v))
        rest := rfl

/-- The fold over parsed members preserves the `[0, 20]` bound on every
channel count. -/
theorem apply_members_bounds (obj : List JsonMember) : ∀ (cs : List Int),
    (∀ c ∈ cs, 0 ≤ c ∧ c ≤ 20) → ∀ c ∈ apply_members cs obj, 0 ≤ c ∧ c ≤ 20 := by
  induction obj with
  | nil => intro cs h; simpa [apply_members] using h
  | cons it rest ih =>
    intro cs h
    rw [apply_members_cons]
    apply ih
    cases hv : it.value with
    | none => exact h
    | some v =>
      by_cases hidx : pill_to_index it.key < 0
      · simpa [hidx] using h
      · simp only [hidx, if_false]
        intro c hc
        rcases List.mem_or_eq_of_mem_set hc with hc | hc
        · exact h c hc
        · subst hc; exact clamp_count_bounds v

/-- The decoded frame counts are bytes of the frame itself. -/
theorem sauron_frame_counts_mem (frame : List Nat) (c : Nat)
    (hc : c ∈ sauron_frame_counts frame) : c ∈ frame := by
  unfold sauron_frame_counts at hc
  split at hc
  · simp only [List.mem_cons] at hc
    rcases hc with h | h | h | h | h
    · simp [h]
    · simp [h]
    · simp [h]
    · simp [h]
    · simp at h
  · simp at hc

/-- Draining an empty buffer stops immediately. -/
theorem drainF_nil (f : Nat) : drainF f [] = ([], []) := by
  cases f <;> simp [drainF, drainStep]

/-- One unfolding of the fuelled drain when the pass emits an event. -/
theorem drainF_succ_emit (f : Nat) (buf rest : List Nat) (e : Event)
    (h : drainStep buf = .emit e rest) :
    drainF (f + 1) buf = (e :: (drainF f rest).1, (drainF f rest).2) := by
  simp only [drainF, h]

/-- Repackaging of the per-byte noise conditions. -/
theorem noise_cond_of_flags (b : Nat)
    (h : b ≠ UART_FRAME_START ∧ b ≠ 10 ∧ b ≠ 123 ∧ b ≠ 32 ∧ b ≠ 9 ∧ b ≠ 13) :
    ¬(b = UART_FRAME_START ∨ b = 123 ∨ b = 32 ∨ b = 9 ∨ b = 13) := by
  obtain ⟨h1, _, h3, h4, h5, h6⟩ := h
  intro hc
  rcases hc with hc | hc | hc | hc | hc
  · exact h1 hc
  · exact h3 hc
  · exact h4 hc
  · exact h5 hc
  · exact h6 hc

/-- A complete newline-terminated unit at the head of the buffer (head
byte not the frame marker, no newline before the terminator) is emitted
as one line unit — truncated to `BUF_SIZE - 1` bytes — and the whole
unit including the newline is consumed. -/
theorem drainStep_line (b0 : Nat) (rest t : List Nat)
    (hb0 : b0 ≠ UART_FRAME_START) (hnl : ∀ b ∈ b0 :: rest, b ≠ 10) :
    drainStep ((b0 :: rest) ++ 10 :: t) =
      .emit (.lineUnit ((b0 :: rest).take (BUF_SIZE - 1))) t := by
  have hfnl := find_newline_append (b0 :: rest) t hnl
  have htake : (b0 :: (rest ++ 10 :: t)).take ((b0 :: rest).length) = b0 :: rest := by
    have h := List.take_left (b0 :: rest) (10 :: t)
    simpa using h
  have hdrop : (b0 :: (rest ++ 10 :: t)).drop ((b0 :: rest).length + 1) = t := by
    have h2 : ((b0 :: rest) ++ [10]).length = (b0 :: rest).length + 1 := by simp
    have h := List.drop_left ((b0 :: rest) ++ [10]) t
    rw [h2] at h
    simpa using h
  simp only [List.cons_append] at hfnl htake hdrop ⊢
  simp only [drainStep, hb0, if_false, hfnl]
  rw [htake, hdrop]

/-- Claim C1: every 8-byte sequence whose byte 0 is `0xAA`, byte 1 is
`0x01`, byte 7 is `0x55`, and byte 6 equals `(b1+b2+b3+b4+b5) mod 256`
is accepted by the frame parser, and the four dose counts produced are
exactly bytes 2–5, unchanged and in channel order (the accumulator pass
consumes the whole frame and acknowledges those counts). -/
theorem C1_valid_frame_accepted (b0 b1 b2 b3 b4 b5 b6 b7 : Nat)
    (h0 : b0 = UART_FRAME_START) (h1 : b1 = UART_FRAME_VER_1)
    (h7 : b7 = UART_FRAME_END) (h6 : b6 = (b1 + b2 + b3 + b4 + b5) % 256) :
    sauron_frame_verdict [b0, b1, b2, b3, b4, b5, b6, b7] = 1 ∧
    drainStep [b0, b1, b2, b3, b4, b5, b6, b7] =
      .emit (.frameAck [b2, b3, b4, b5]) [] := by
  subst h0 h1 h7 h6
  have hv : sauron_frame_verdict
      [UART_FRAME_START, UART_FRAME_VER_1, b2, b3, b4, b5,
        (UART_FRAME_VER_1 + b2 + b3 + b4 + b5) % 256, UART_FRAME_END] = 1 := by
    simp [sauron_frame_verdict]
  refine ⟨hv, ?_⟩
  have hstep := drainStep_frame_ok
    [UART_FRAME_VER_1, b2, b3, b4, b5,
      (UART_FRAME_VER_1 + b2 + b3 + b4 + b5) % 256, UART_FRAME_END]
    (by simp [UART_FRAME_LEN_V1]) hv
  simpa [sauron_frame_counts, UART_FRAME_LEN_V1] using hstep

/-- Witness for C1 at the concrete frame `AA 01 02 03 04 05 0F 55`. -/
theorem C1_valid_frame_accepted_witness :
    sauron_frame_verdict [170, 1, 2, 3, 4, 5, 15, 85] = 1 ∧
    drainStep [170, 1, 2, 3, 4, 5, 15, 85] = .emit (.frameAck [2, 3, 4, 5]) [] :=
  C1_valid_frame_accepted 170 1 2 3 4 5 15 85 rfl rfl rfl (by decide)

/-- Claim C2 (counterexample): the corrupt frame `AA 01 00 00 00 00 FF 55`
(markers correct, checksum wrong) followed by the VALID frame
`AA 01 0A 00 00 00 0B 55` (checksum `1 + 10 = 11`) is not recovered
byte-by-byte: after the first dropped byte, the newline scan finds the
`0x0A` payload byte of the valid frame and swallows ten bytes as a
bogus line unit, so the trailing valid frame is never parsed (no
`frameAck` event ever occurs) and the corrupt prefix is not removed one
byte at a time. -/
theorem C2_counterexample :
    sauron_frame_verdict [170, 1, 0, 0, 0, 0, 255, 85] = -1 ∧
    sauron_frame_verdict [170, 1, 10, 0, 0, 0, 11, 85] = 1 ∧
    drain ([170, 1, 0, 0, 0, 0, 255, 85] ++ [170, 1, 10, 0, 0, 0, 11, 85]) =
      ([Event.dropByte 170, Event.lineUnit [1, 0, 0, 0, 0, 255, 85, 170, 1],
        Event.dropByte 0, Event.dropByte 0, Event.dropByte 0,
        Event.dropByte 11, Event.dropByte 85], []) := by
  refine ⟨by decide, by decide, by decide⟩

/-- Claim C2 as amended: a corrupt 8-byte frame (markers correct,
checksum wrong) followed by a valid frame is reported invalid, and the
accumulator removes the corrupt prefix by discarding exactly one byte
at a time and then parses the trailing valid frame — provided none of
the corrupt frame's middle bytes is the start marker, a newline, or a
plausible line start (`{`, space, tab, CR), and no byte of the valid
frame's payload or checksum is a newline (otherwise resynchronisation
can consume several bytes as a line unit or a misaligned frame, as the
counterexample shows). -/
theorem C2_amended (c1 c2 c3 c4 c5 c6 v2 v3 v4 v5 v6 : Nat)
    (hchk : (c1 + c2 + c3 + c4 + c5) % 256 ≠ c6)
    (hmid : ∀ b ∈ [c1, c2, c3, c4, c5, c6],
      b ≠ UART_FRAME_START ∧ b ≠ 10 ∧ b ≠ 123 ∧ b ≠ 32 ∧ b ≠ 9 ∧ b ≠ 13)
    (hv10 : ∀ b ∈ [v2, v3, v4, v5, v6], b ≠ 10)
    (hvchk : v6 = (UART_FRAME_VER_1 + v2 + v3 + v4 + v5) % 256) :
    sauron_frame_verdict
      [UART_FRAME_START, c1, c2, c3, c4, c5, c6, UART_FRAME_END] = -1 ∧
    drain ([UART_FRAME_START, c1, c2, c3, c4, c5, c6, UART_FRAME_END] ++
        [UART_FRAME_START, UART_FRAME_VER_1, v2, v3, v4, v5, v6, UART_FRAME_END]) =
      ([Event.dropByte UART_FRAME_START, Event.dropByte c1, Event.dropByte c2,
        Event.dropByte c3, Event.dropByte c4, Event.dropByte c5,
        Event.dropByte c6, Event.dropByte UART_FRAME_END,
        Event.frameAck [v2, v3, v4, v5]], []) := by
  have hcv : ∀ l : List Nat, sauron_frame_verdict
      (UART_FRAME_START :: c1 :: c2 :: c3 :: c4 :: c5 :: c6 :: UART_FRAME_END :: l) =
        -1 := by
    intro l
    show (if UART_FRAME_START ≠ UART_FRAME_START then (0 : Int)
      else if UART_FRAME_END ≠ UART_FRAME_END then -1
      else if c1 ≠ UART_FRAME_VER_1 then -1
      else if (c1 + c2 + c3 + c4 + c5) % 256 ≠ c6 then -1 else 1) = -1
    rw [if_neg (by simp), if_neg (by simp)]
    by_cases h1 : c1 ≠ UART_FRAME_VER_1
    · rw [if_pos h1]
    · rw [if_neg h1, if_pos hchk]
  have hvv : sauron_frame_verdict (UART_FRAME_START :: UART_FRAME_VER_1 ::
      v2 :: v3 :: v4 :: v5 :: v6 :: UART_FRAME_END :: []) = 1 := by
    show (if UART_FRAME_START ≠ UART_FRAME_START then (0 : Int)
      else if UART_FRAME_END ≠ UART_FRAME_END then -1
      else if UART_FRAME_VER_1 ≠ UART_FRAME_VER_1 then -1
      else if (UART_FRAME_VER_1 + v2 + v3 + v4 + v5) % 256 ≠ v6 then -1 else 1) = 1
    rw [if_neg (by simp), if_neg (by simp), if_neg (by simp),
      if_neg (not_not_intro hvchk.symm)]
  refine ⟨hcv [], ?_⟩
  have hvne : sauron_frame_verdict (UART_FRAME_START :: c1 :: c2 :: c3 :: c4 ::
      c5 :: c6 :: UART_FRAME_END :: [UART_FRAME_START, UART_FRAME_VER_1,
        v2, v3, v4, v5, v6, UART_FRAME_END]) ≠ 1 := by
    rw [hcv]
    decide
  have hstep1 := drainStep_frame_fail (c1 :: c2 :: c3 :: c4 :: c5 :: c6 ::
    UART_FRAME_END :: [UART_FRAME_START, UART_FRAME_VER_1,
      v2, v3, v4, v5, v6, UART_FRAME_END]) (by simp [UART_FRAME_LEN_V1]) hvne
  have hn1 : ∀ b ∈ [c1, c2, c3, c4, c5, c6, UART_FRAME_END],
      ¬(b = UART_FRAME_START ∨ b = 123 ∨ b = 32 ∨ b = 9 ∨ b = 13) := by
    intro b hb
    simp only [List.mem_cons, List.not_mem_nil, or_false] at hb
    rcases hb with rfl | rfl | rfl | rfl | rfl | rfl | rfl
    · exact noise_cond_of_flags _ (hmid _ (by simp))
    · exact noise_cond_of_flags _ (hmid _ (by simp))
    · exact noise_cond_of_flags _ (hmid _ (by simp))
    · exact noise_cond_of_flags _ (hmid _ (by simp))
    · exact noise_cond_of_flags _ (hmid _ (by simp))
    · exact noise_cond_of_flags _ (hmid _ (by simp))
    · decide
  have hn2 : ∀ b ∈ [c1, c2, c3, c4, c5, c6, UART_FRAME_END], b ≠ 10 := by
    intro b hb
    simp only [List.mem_cons, List.not_mem_nil, or_false] at hb
    rcases hb with rfl | rfl | rfl | rfl | rfl | rfl | rfl
    · exact (hmid _ (by simp)).2.1
    · exact (hmid _ (by simp)).2.1
    · exact (hmid _ (by simp)).2.1
    · exact (hmid _ (by simp)).2.1
    · exact (hmid _ (by simp)).2.1
    · exact (hmid _ (by simp)).2.1
    · decide
  have hn3 : ∀ b ∈ [UART_FRAME_START, UART_FRAME_VER_1,
      v2, v3, v4, v5, v6, UART_FRAME_END], b ≠ 10 := by
    intro b hb
    simp only [List.mem_cons, List.not_mem_nil, or_false] at hb
    rcases hb with rfl | rfl | rfl | rfl | rfl | rfl | rfl | rfl
    · decide
    · decide
    · exact hv10 _ (by simp)
    · exact hv10 _ (by simp)
    · exact hv10 _ (by simp)
    · exact hv10 _ (by simp)
    · exact hv10 _ (by simp)
    · decide
  have hn := drain_noise [c1, c2, c3, c4, c5, c6, UART_FRAME_END]
    [UART_FRAME_START, UART_FRAME_VER_1, v2, v3, v4, v5, v6, UART_FRAME_END]
    8 hn1 hn2 hn3
  have h8 : drainF 8 [UART_FRAME_START, UART_FRAME_VER_1,
      v2, v3, v4, v5, v6, UART_FRAME_END] = ([.frameAck [v2, v3, v4, v5]], []) := by
    have hstep := drainStep_frame_ok (UART_FRAME_VER_1 ::
      v2 :: v3 :: v4 :: v5 :: v6 :: UART_FRAME_END :: [])
      (by simp [UART_FRAME_LEN_V1]) hvv
    rw [show (8 : Nat) = 7 + 1 from rfl, drainF_succ_emit 7 _ _ _ hstep]
    simp [sauron_frame_counts, UART_FRAME_LEN_V1, drainF_nil]
  unfold drain
  rw [show (([c1, c2, c3, c4, c5, c6, UART_FRAME_END] : List Nat).length + 8) = 15
    from by simp] at hn
  simp only [List.cons_append, List.nil_append] at hstep1 hn ⊢
  rw [show (([UART_FRAME_START, c1, c2, c3, c4, c5, c6, UART_FRAME_END,
      UART_FRAME_START, UART_FRAME_VER_1, v2, v3, v4, v5, v6,
      UART_FRAME_END] : List Nat).length) = 15 + 1 from by simp]
  rw [drainF_succ_emit 15 _ _ _ hstep1, hn, h8]
  simp

/-- Witness for C2 as amended: corrupt frame `AA 01 00 00 00 00 FF 55`
followed by the valid frame `AA 01 02 00 00 00 03 55`. -/
theorem C2_amended_witness :
    sauron_frame_verdict
      [UART_FRAME_START, 1, 0, 0, 0, 0, 255, UART_FRAME_END] = -1 ∧
    drain ([UART_FRAME_START, 1, 0, 0, 0, 0, 255, UART_FRAME_END] ++
        [UART_FRAME_START, UART_FRAME_VER_1, 2, 0, 0, 0, 3, UART_FRAME_END]) =
      ([Event.dropByte UART_FRAME_START, Event.dropByte 1, Event.dropByte 0,
        Event.dropByte 0, Event.dropByte 0, Event.dropByte 0,
        Event.dropByte 255, Event.dropByte UART_FRAME_END,
        Event.frameAck [2, 0, 0, 0]], []) :=
  C2_amended 1 0 0 0 0 255 2 0 0 0 3 (by decide) (by decide) (by decide) (by decide)

/-- Claim C3 (failing input): the overflow branch of `uart_task`'s ingest
keeps the FIRST `RX_ACCUM_SIZE` bytes of an oversized chunk, not the
most recent ones: ingesting 2048 zero bytes followed by a single `1`
into an empty buffer retains the 2048 zeros and loses the trailing `1`,
while the most recent 2048 bytes of the combined input end in that `1`. -/
theorem C3_ingest_keeps_oldest :
    ingest [] (List.replicate 2048 0 ++ [1]) = List.replicate 2048 0 ∧
    (1 : Nat) ∉ ingest [] (List.replicate 2048 0 ++ [1]) ∧
    (1 : Nat) ∈ (([] : List Nat) ++ (List.replicate 2048 0 ++ [1])).drop
        ((([] : List Nat) ++ (List.replicate 2048 0 ++ [1])).length - RX_ACCUM_SIZE) := by
  have hcons : List.replicate 2048 (0 : Nat) = 0 :: List.replicate 2047 0 := by
    rw [show (2048 : Nat) = 2047 + 1 from rfl, List.replicate_succ]
  have hmain : ingest [] (List.replicate 2048 0 ++ [1]) = List.replicate 2048 0 := by
    unfold ingest
    rw [if_pos ?side]
    case side =>
      simp only [List.length_append, List.length_replicate, List.length_cons,
        List.length_nil, RX_ACCUM_SIZE]
      omega
    have h := List.take_left (List.replicate 2048 (0 : Nat)) [1]
    rw [List.length_replicate] at h
    exact h
  refine ⟨hmain, ?_, ?_⟩
  · rw [hmain, List.mem_replicate]
    omega
  · have hlen : ((([] : List Nat) ++ (List.replicate 2048 0 ++ [1])).length -
        RX_ACCUM_SIZE) = 1 := by
      simp only [List.nil_append, List.length_append, List.length_replicate,
        List.length_cons, List.length_nil, RX_ACCUM_SIZE]
    rw [hlen, List.nil_append, hcons, List.cons_append, List.drop_one, List.tail_cons]
    exact List.mem_append.mpr (Or.inr (List.mem_singleton.mpr rfl))

/-- Claim C4 (counterexample): one noise byte `x` (0x78 — not a frame
start, not a newline) followed by the valid line command
`{"Vitamin C":1}\n` is NOT discarded byte-by-byte: because a newline is
already buffered, the very first pass extracts noise and command
together as one (malformed) line unit, so no byte is ever dropped as
noise and the valid command alone is never handed to the line parser. -/
theorem C4_counterexample :
    drain ([120] ++
        [123, 34, 86, 105, 116, 97, 109, 105, 110, 32, 67, 34, 58, 49, 125] ++
        [10]) =
      ([Event.lineUnit
        [120, 123, 34, 86, 105, 116, 97, 109, 105, 110, 32, 67, 34, 58, 49, 125]],
        []) ∧
    Event.lineUnit [123, 34, 86, 105, 116, 97, 109, 105, 110, 32, 67, 34, 58, 49, 125]
      ∉ (drain ([120] ++
        [123, 34, 86, 105, 116, 97, 109, 105, 110, 32, 67, 34, 58, 49, 125] ++
        [10])).1 ∧
    Event.dropByte 120 ∉ (drain ([120] ++
        [123, 34, 86, 105, 116, 97, 109, 105, 110, 32, 67, 34, 58, 49, 125] ++
        [10])).1 := by
  refine ⟨by decide, by decide, by decide⟩

/-- Claim C4 as amended: a noise prefix of K bytes — none a frame start,
newline, `{`, space, tab, or CR — that is buffered BEFORE the line
command's newline arrives is fully discarded in exactly K accumulator
passes (one byte per pass, leaving an empty buffer); a valid line
command (no newline or frame-start byte inside, at most 1023 bytes,
not all-whitespace, accepted by the parser) ingested afterwards is
then parsed and acknowledged exactly once with status `done`.  (When
noise and a complete line sit in the buffer together, the first pass
instead consumes them as one malformed line unit, as the
counterexample shows.) -/
theorem C4_amended (parse : List Nat → Option (List JsonMember))
    (noise line : List Nat) (b0 : Nat) (obj : List JsonMember)
    (hnoise : ∀ b ∈ noise,
      b ≠ UART_FRAME_START ∧ b ≠ 10 ∧ b ≠ 123 ∧ b ≠ 32 ∧ b ≠ 9 ∧ b ≠ 13)
    (hhead : line.head? = some b0) (hb0 : b0 ≠ UART_FRAME_START)
    (hline10 : ∀ b ∈ line, b ≠ 10) (hlen : line.length ≤ BUF_SIZE - 1)
    (htrim : line_trim line ≠ []) (hparse : parse (line_trim line) = some obj) :
    drainF noise.length noise = (noise.map Event.dropByte, []) ∧
    drain (line ++ [10]) = ([Event.lineUnit line], []) ∧
    event_acks parse (Event.lineUnit line) =
      [⟨"done", "json_line", line_counts obj⟩] := by
  refine ⟨?_, ?_, ?_⟩
  · have hn := drain_noise noise [] 0
      (fun b hb => noise_cond_of_flags b (hnoise b hb))
      (fun b hb => (hnoise b hb).2.1)
      (fun b hb => absurd hb (List.not_mem_nil b))
    simpa [drainF] using hn
  · cases line with
    | nil => exact absurd rfl htrim
    | cons c rest =>
      have hc : c = b0 := by simpa using hhead
      subst hc
      have hstep := drainStep_line c rest [] hb0 hline10
      have htake : (c :: rest).take (BUF_SIZE - 1) = c :: rest :=
        List.take_of_length_le hlen
      have hL : ((c :: rest) ++ [10]).length = (rest.length + 1) + 1 := by simp
      unfold drain
      rw [hL, drainF_succ_emit _ _ _ _ hstep, htake, drainF_nil]
  · simp [event_acks, handle_json_command_line, htrim, hparse]

/-- Witness for C4 as amended: the noise byte `0x00`, then the line `{`
under a parser accepting it as one dose of channel 0. -/
theorem C4_amended_witness :
    drainF 1 [0] = ([Event.dropByte 0], []) ∧
    drain ([123] ++ [10]) = ([Event.lineUnit [123]], []) ∧
    event_acks (fun _ => some [⟨"Vitamin C", some 1⟩]) (Event.lineUnit [123]) =
      [⟨"done", "json_line", line_counts [⟨"Vitamin C", some 1⟩]⟩] :=
  C4_amended (fun _ => some [⟨"Vitamin C", some 1⟩]) [0] [123] 123
    [⟨"Vitamin C", some 1⟩] (by decide) rfl (by decide) (by decide) (by decide)
    (by decide) rfl

/-- Claim C7 (counterexample): the frame `AA 01 FF 00 00 00 00 55`
validates (checksum `(1+255) mod 256 = 0`), and the dose counts handed
to the dispatcher are `[255,0,0,0]` — the channel-0 count 255 is not in
`[0, 20]`, refuting the claim that every parsed command unit's counts
are clamped into that range. -/
theorem C7_counterexample :
    sauron_frame_verdict [170, 1, 255, 0, 0, 0, 0, 85] = 1 ∧
    sauron_frame_counts [170, 1, 255, 0, 0, 0, 0, 85] = [255, 0, 0, 0] ∧
    ¬((255 : Nat) ≤ 20) := by
  refine ⟨by decide, rfl, by decide⟩

/-- Claim C7 as amended: counts resolved by the line parser always lie
in `[0, 20]` (out-of-range values are clamped, never rejected); counts
decoded from a validated binary frame are the raw payload bytes, bounded
only by the byte width `[0, 255]` and passed to the dispatcher without
further clamping. -/
theorem C7_amended (obj : List JsonMember) (frame : List Nat) :
    (∀ c ∈ line_counts obj, 0 ≤ c ∧ c ≤ 20) ∧
    (sauron_frame_verdict frame = 1 → (∀ b ∈ frame, b < 256) →
      ∀ c ∈ sauron_frame_counts frame, c ≤ 255) := by
  constructor
  · exact apply_members_bounds obj [0, 0, 0, 0] (by decide)
  · intro _ hb c hc
    have := hb c (sauron_frame_counts_mem frame c hc)
    omega

/-- Witness for C7 as amended: a clamped line command and the scenario-2
frame `AA 01 01 00 00 00 02 55`. -/
theorem C7_amended_witness :
    (∀ c ∈ line_counts [⟨"Vitamin C", some 9999⟩, ⟨"Tylenol", some (-5)⟩],
      0 ≤ c ∧ c ≤ 20) ∧
    (∀ c ∈ sauron_frame_counts [170, 1, 1, 0, 0, 0, 2, 85], c ≤ 255) :=
  ⟨(C7_amended [⟨"Vitamin C", some 9999⟩, ⟨"Tylenol", some (-5)⟩] []).1,
   (C7_amended [] [170, 1, 1, 0, 0, 0, 2, 85]).2 (by decide) (by decide)⟩

/-- Claim C8: every pass of the accumulator's parse loop either stops or
strictly shrinks the buffer, and fuel equal to the buffer length already
computes the loop's fixpoint — the drain loop terminates on every finite
buffer, leaving every byte either consumed as part of a recognized unit
or discarded as noise. -/
theorem C8_progress_and_termination :
    (∀ buf : List Nat, drainStep buf = .stop ∨
      ∃ e rest, drainStep buf = .emit e rest ∧ rest.length < buf.length) ∧
    (∀ (fuel : Nat) (buf : List Nat), buf.length ≤ fuel →
      drainF fuel buf = drain buf) := by
  constructor
  · intro buf
    cases hstep : drainStep buf with
    | stop => exact Or.inl rfl
    | emit e rest => exact Or.inr ⟨e, rest, rfl, drainStep_progress buf e rest hstep⟩
  · intro fuel buf h
    exact drainF_stable fuel buf.length buf h (Nat.le_refl _)

/-- Witness for C8: extra fuel does not change the drain of a one-byte
buffer. -/
theorem C8_progress_and_termination_witness :
    drainF 5 [170] = drain [170] :=
  C8_progress_and_termination.2 5 [170] (by decide)

/-- Claim C9 (counterexample): at angle 90 the code's conversion yields
duty 4915, while the spec's formula `duty_min + angle *
(duty_max - duty_min) / angle_max` (with `duty_min = duty(0) = 1638`,
`duty_max = duty(180) = 8191`) yields 4914 — the code is not the
duty-space linear map under exact integer arithmetic. -/
theorem C9_counterexample :
    angle_to_duty 90 = 4915 ∧ spec_angle_to_duty 90 = 4914 ∧
    angle_to_duty 90 ≠ spec_angle_to_duty 90 := by
  refine ⟨by decide, by decide, by decide⟩

set_option maxRecDepth 8000 in
/-- Claim C9 as amended: the conversion clamps the angle into
`[0, 180]` and is linear in pulse-width space —
`pulse = 500 + angle * (2500 - 500) / 180` µs, then
`duty = pulse * (2^16 - 1) / 20000` — which tracks the spec's duty-space
linear map only up to rounding: within 3 duty units below and 1 above. -/
theorem C9_amended :
    (∀ angle : Int, angle_to_duty angle =
      (SERVO_MIN_PULSE_US + clamp_angle angle *
          (SERVO_MAX_PULSE_US - SERVO_MIN_PULSE_US) / SERVO_MAX_ANGLE_DEG) *
        ((2 ^ 16) - 1) / SERVO_PERIOD_US) ∧
    (∀ (a : Nat), a < 181 →
      spec_angle_to_duty a ≤ angle_to_duty a + 3 ∧
      angle_to_duty a ≤ spec_angle_to_duty a + 1) := by
  refine ⟨fun angle => rfl, ?_⟩
  decide

/-- Witness for C9 as amended at angle 90. -/
theorem C9_amended_witness :
    spec_angle_to_duty 90 ≤ angle_to_duty 90 + 3 ∧
    angle_to_duty 90 ≤ spec_angle_to_duty 90 + 1 :=
  C9_amended.2 90 (by decide)

/-- Claim C10: a newline-terminated unit extracted by the accumulator is
truncated to its first 1023 bytes before being handed to the line
parser, while the entire unit including the newline is consumed from
the buffer. -/
theorem C10_line_truncated_unit_consumed (buf : List Nat) (b i : Nat)
    (hhead : buf.head? = some b) (hb : b ≠ UART_FRAME_START)
    (hfind : find_newline buf = some i) :
    drainStep buf = .emit (.lineUnit ((buf.take i).take 1023)) (buf.drop (i + 1)) ∧
    ((buf.take i).take 1023).length ≤ 1023 ∧
    (buf.drop (i + 1)).length + (i + 1) = buf.length := by
  have hi := find_newline_lt_length buf i hfind
  cases buf with
  | nil => simp at hhead
  | cons c tl =>
    have hcb : c = b := by simpa using hhead
    subst hcb
    refine ⟨?_, ?_, ?_⟩
    · simp only [drainStep]
      rw [if_neg hb, hfind]
      rfl
    · simp only [List.length_take]
      omega
    · simp only [List.length_drop]
      simp only [List.length_cons] at hi ⊢
      omega

/-- Witness for C10 on the two-byte buffer `A\n`. -/
theorem C10_line_truncated_unit_consumed_witness :
    drainStep [65, 10] = .emit (.lineUnit (([65, 10].take 1).take 1023))
        ([65, 10].drop 2) ∧
    (([65, 10].take 1).take 1023).length ≤ 1023 ∧
    (([65, 10].drop 2).length + 2 = [65, 10].length) :=
  C10_line_truncated_unit_consumed [65, 10] 65 1 rfl (by decide) (by decide)

end Sauron
